import Mathlib

/-!
Shallow embedding of the reflection-based uniform name-mapping core of
`hlsl_into_glsl` (src/converter.rs, src/error.rs), together with proofs of
its specified properties.

The embedded functions follow the Rust source line by line:
* `array_member_names`  — src/converter.rs, `array_member_names`
* `get_member_names_deep` — src/converter.rs, `get_member_names_deep`
  (with an explicit fuel argument standing for the recursion depth, since
  the Rust recursion is unbounded and the type graph is external input)
* `find_uniform_mappings` — src/converter.rs, `find_uniform_mappings`

Rust `Result` plus the possibility of a `panic!` / out-of-bounds index is
modelled by the four-way outcome type `RunResult`; exhaustion of the fuel
is a separate outcome `outOfFuel` so that nontermination is never confused
with any behaviour of the real program.
-/

namespace HlslIntoGlsl

/-- The `spirv_cross::spirv::Type` variants, as matched by `get_member_names_deep`.
Each numeric/boolean variant carries its array dimensions (`array` field). -/
inductive SpirvType where
  | Struct (member_types : List Nat) (array : List Nat)
  | Float (array : List Nat)
  | Double (array : List Nat)
  | Int (array : List Nat)
  | Int64 (array : List Nat)
  | UInt (array : List Nat)
  | UInt64 (array : List Nat)
  | Boolean (array : List Nat)
  | Char (array : List Nat)
  | Half (array : List Nat)
  | Image
  | SampledImage
  | Sampler
  | AtomicCounter
  | Void
  | Unknown
  deriving DecidableEq, Repr

/-- `spirv_cross::ErrorCode` (the error type of the reflection queries). -/
inductive ErrorCode where
  | Unhandled
  | CompilationError (msg : String)
  deriving DecidableEq, Repr

/-- The crate's `error::Error` enum (src/error.rs). The payload of `Io` is
reduced to its message, the only part the program ever reads. -/
inductive Error where
  | Io (msg : String)
  | InitFailed
  | CompilationFailed (msg : String)
  | ParseFailed (msg : String)
  deriving DecidableEq, Repr

/-- `impl From<spirv_cross::ErrorCode> for Error` (src/error.rs). -/
def errorFromCode : ErrorCode → Error
  | ErrorCode.Unhandled => Error.ParseFailed "unhandled"
  | ErrorCode.CompilationError msg =>
      Error.ParseFailed ("compilation failed: " ++ msg)

/-- Outcome of running a piece of the Rust program: a normal `Ok`, a normal
`Err`, an abrupt termination (`panic!` or out-of-bounds slice index), or
exhaustion of the recursion fuel of the embedding. -/
inductive RunResult (α : Type) where
  | ok (val : α)
  | err (e : Error)
  | panic (msg : String)
  | outOfFuel
  deriving DecidableEq, Repr

/-- A `spirv_cross::spirv::Resource`: numeric ids and the source-level
debug name. -/
structure Resource where
  id : Nat
  type_id : Nat
  base_type_id : Nat
  name : String
  deriving DecidableEq, Repr

/-- The fields of `spirv::ShaderResources` that `find_uniform_mappings`
reads (plus `separate_samplers`, which it deliberately ignores). -/
structure ShaderResources where
  uniform_buffers : List Resource
  sampled_images : List Resource
  separate_images : List Resource
  separate_samplers : List Resource
  deriving DecidableEq, Repr

/-- The reflection interface of `spirv::Ast` used by the mapping builder:
every query may fail with an `ErrorCode`. -/
structure Ast where
  get_type : Nat → Except ErrorCode SpirvType
  get_member_name : Nat → Nat → Except ErrorCode String
  get_base_type_id : Nat → Except ErrorCode Nat
  get_shader_resources : Except ErrorCode ShaderResources

/-- The body of the `for (rank, dim) in array_dims.iter().enumerate()` loop
of `array_member_names`: at rank 0 each index of the dimension is rendered
onto the base name; at later ranks each index is appended to every element
produced by the previous rank. The `rank = 0` test is the Rust loop's
`if rank == 0`, hoisted out of the (rank-invariant) inner loop. -/
def array_member_names_go (base_name : String) :
    List Nat → Nat → List String → List String
  | [], _, array_element_names => array_element_names
  | dim :: rest, rank, array_element_names =>
    let prev_elements := array_element_names
    let next :=
      if rank = 0 then
        (List.range dim).map (fun element =>
          base_name ++ "[" ++ toString element ++ "]")
      else
        (List.range dim).flatMap (fun element =>
          prev_elements.map (fun prev_element =>
            prev_element ++ "[" ++ toString element ++ "]"))
    array_member_names_go base_name rest (rank + 1) next

/-- `array_member_names` (src/converter.rs lines 268-291). -/
def array_member_names (base_name : String) (array_dims : List Nat) :
    List String :=
  if array_dims.length = 0 then
    [base_name]
  else
    array_member_names_go base_name array_dims 0 []

/-- The `for (member_id, member_type) in member_types.into_iter().enumerate()`
loop inside `get_member_names_deep`, returning the names it accumulates.
The recursive call of the Rust function is abstracted as the parameter
`deep` (instantiated with `get_member_names_deep` at one less fuel). -/
def member_names_loop (ast : Ast) (deep : Nat → RunResult (List String))
    (struct_type_id : Nat) : List Nat → Nat → RunResult (List String)
  | [], _ => RunResult.ok []
  | member_type :: rest, member_id =>
    match ast.get_member_name struct_type_id member_id with
    | Except.error e => RunResult.err (errorFromCode e)
    | Except.ok member_base_name =>
      match ast.get_type member_type with
      | Except.error e => RunResult.err (errorFromCode e)
      | Except.ok (SpirvType.Struct _ array) =>
        let element_names := array_member_names member_base_name array
        match ast.get_base_type_id member_type with
        | Except.error e => RunResult.err (errorFromCode e)
        | Except.ok member_base_type =>
          match deep member_base_type with
          | RunResult.ok child_names =>
            let here := element_names.flatMap (fun element_name =>
              child_names.map (fun child_name =>
                element_name ++ "." ++ child_name))
            match member_names_loop ast deep struct_type_id rest (member_id + 1) with
            | RunResult.ok names => RunResult.ok (here ++ names)
            | r => r
          | r => r
      | Except.ok (SpirvType.Float array)
      | Except.ok (SpirvType.Double array)
      | Except.ok (SpirvType.Int array)
      | Except.ok (SpirvType.Int64 array)
      | Except.ok (SpirvType.UInt array)
      | Except.ok (SpirvType.UInt64 array)
      | Except.ok (SpirvType.Boolean array)
      | Except.ok (SpirvType.Char array)
      | Except.ok (SpirvType.Half array) =>
        let here := array_member_names member_base_name array
        match member_names_loop ast deep struct_type_id rest (member_id + 1) with
        | RunResult.ok names => RunResult.ok (here ++ names)
        | r => r
      | Except.ok SpirvType.Image
      | Except.ok SpirvType.SampledImage
      | Except.ok SpirvType.Sampler
      | Except.ok SpirvType.AtomicCounter
      | Except.ok SpirvType.Void
      | Except.ok SpirvType.Unknown =>
        RunResult.err (Error.CompilationFailed
          ("member of " ++ member_base_name ++ " had an unsupported type"))

/-- `get_member_names_deep` (src/converter.rs lines 213-266), with `fuel`
bounding the recursion depth. -/
def get_member_names_deep (ast : Ast) : Nat → Nat → RunResult (List String)
  | 0, _ => RunResult.outOfFuel
  | fuel + 1, struct_type_id =>
    match ast.get_type struct_type_id with
    | Except.error e => RunResult.err (errorFromCode e)
    | Except.ok (SpirvType.Struct member_types _member_array_sizes) =>
        member_names_loop ast (fun id => get_member_names_deep ast fuel id)
          struct_type_id member_types 0
    | Except.ok _ => RunResult.panic "uniform buffer must be a struct"

/-- Insertion into the mapping table with the semantics of Rust's
`HashMap::insert`: the new binding replaces any earlier binding of the
same key (entry order carries no meaning). -/
def insertMapping (m : List (String × String)) (k v : String) :
    List (String × String) :=
  m.filter (fun p => !(p.1 == k)) ++ [(k, v)]

/-- The `for uniform_buffer in shader_resources.uniform_buffers` loop of
`find_uniform_mappings` (src/converter.rs lines 191-197). -/
def uniform_buffers_loop (ast : Ast) (fuel : Nat) :
    List Resource → List (String × String) → RunResult (List (String × String))
  | [], mappings => RunResult.ok mappings
  | uniform_buffer :: rest, mappings =>
    match get_member_names_deep ast fuel uniform_buffer.base_type_id with
    | RunResult.ok member_names =>
      let mappings := member_names.foldl (fun acc member_name =>
        insertMapping acc
          ("_" ++ toString uniform_buffer.id ++ "." ++ member_name)
          member_name) mappings
      uniform_buffers_loop ast fuel rest mappings
    | RunResult.err e => RunResult.err e
    | RunResult.panic msg => RunResult.panic msg
    | RunResult.outOfFuel => RunResult.outOfFuel

/-- The `for (image_index, sampled_image) in ...enumerate()` loop of
`find_uniform_mappings` (src/converter.rs lines 202-208). The Rust body
indexes `shader_resources.separate_images[image_index]` with no bounds
check, which panics when the index is out of range. -/
def sampled_images_loop (separate_images : List Resource) :
    List Resource → Nat → List (String × String) →
    RunResult (List (String × String))
  | [], _, mappings => RunResult.ok mappings
  | sampled_image :: rest, image_index, mappings =>
    match separate_images[image_index]? with
    | none => RunResult.panic "index out of bounds"
    | some image =>
      let compiled_name := "_" ++ toString sampled_image.id
      sampled_images_loop separate_images rest (image_index + 1)
        (insertMapping mappings compiled_name image.name)

/-- `find_uniform_mappings` (src/converter.rs lines 184-211). -/
def find_uniform_mappings (ast : Ast) (fuel : Nat) :
    RunResult (List (String × String)) :=
  match ast.get_shader_resources with
  | Except.error e => RunResult.err (errorFromCode e)
  | Except.ok shader_resources =>
    match uniform_buffers_loop ast fuel shader_resources.uniform_buffers [] with
    | RunResult.ok mappings =>
      sampled_images_loop shader_resources.separate_images
        shader_resources.sampled_images 0 mappings
    | RunResult.err e => RunResult.err e
    | RunResult.panic msg => RunResult.panic msg
    | RunResult.outOfFuel => RunResult.outOfFuel

/-! ### Spec-side definitions used to state the properties -/

/-- Spec §4.1: the list of all index combinations of the given dimensions,
outermost (first-listed) dimension first. -/
def indexCombos : List Nat → List (List Nat)
  | [] => [[]]
  | d :: ds =>
    (List.range d).flatMap (fun i => (indexCombos ds).map (fun idxs => i :: idxs))

/-- Spec §4.1: render a combination of indices as `base[i0][i1]…[in]`. -/
def renderIndexed (base : String) (idxs : List Nat) : String :=
  idxs.foldl (fun s i => s ++ "[" ++ toString i ++ "]") base

/-- The type variants called `Opaque` by the spec (§3): image, sampler,
combined-sampled-image, atomic-counter, void, unknown. -/
def isOpaqueTy : SpirvType → Bool
  | SpirvType.Image => true
  | SpirvType.SampledImage => true
  | SpirvType.Sampler => true
  | SpirvType.AtomicCounter => true
  | SpirvType.Void => true
  | SpirvType.Unknown => true
  | _ => false

/-- The compiled key of a uniform-buffer member (`format!("_{}.{}", id, name)`). -/
def bufferKey (id : Nat) (member_name : String) : String :=
  "_" ++ toString id ++ "." ++ member_name

/-- The compiled key of a combined sampler (`format!("_{}", id)`). -/
def samplerKey (id : Nat) : String :=
  "_" ++ toString id

/-- The mapping entries the spec (§4.3) requires for one buffer whose
flattening produced `member_names`. -/
def bufferEntries (id : Nat) (member_names : List String) :
    List (String × String) :=
  member_names.map (fun member_name => (bufferKey id member_name, member_name))

/-- Numeric value of a decimal digit character (used only to decode the
strings `Nat.repr` produces). -/
def digitVal (c : Char) : Nat := c.toNat - '0'.toNat

/-- Decode a list of decimal digit characters, most significant first. -/
def decodeDigitList (l : List Char) : Nat :=
  l.foldl (fun a c => a * 10 + digitVal c) 0

/-- A small well-formed reflection environment used as a concrete witness:
one uniform buffer `cb` (id 7, base type 0) holding a float member `x` and
a member `s` that is a 2-element array of a struct with one float member
`y`, plus one combined sampler (id 11) paired positionally with one
separate texture `myTex`. -/
def astA : Ast where
  get_type := fun id =>
    if id = 0 then Except.ok (SpirvType.Struct [1, 2] [])
    else if id = 1 then Except.ok (SpirvType.Float [])
    else if id = 2 then Except.ok (SpirvType.Struct [] [2])
    else if id = 3 then Except.ok (SpirvType.Struct [4] [])
    else if id = 4 then Except.ok (SpirvType.Float [])
    else Except.error ErrorCode.Unhandled
  get_member_name := fun sid mid =>
    if sid = 0 && mid = 0 then Except.ok "x"
    else if sid = 0 && mid = 1 then Except.ok "s"
    else if sid = 3 && mid = 0 then Except.ok "y"
    else Except.error ErrorCode.Unhandled
  get_base_type_id := fun id =>
    if id = 2 then Except.ok 3
    else if id = 4 then Except.ok 1
    else Except.error ErrorCode.Unhandled
  get_shader_resources := Except.ok
    { uniform_buffers := [⟨7, 0, 0, "cb"⟩]
      sampled_images := [⟨11, 5, 5, "combined"⟩]
      separate_images := [⟨12, 6, 6, "myTex"⟩]
      separate_samplers := [] }

/-- A reflection environment whose buffer struct (type 0) has members
`x : float`, `t : Texture2D` (an opaque image type) and `z : float`, used
to witness the opaque-member error path. -/
def astOpq : Ast where
  get_type := fun id =>
    if id = 0 then Except.ok (SpirvType.Struct [1, 5, 1] [])
    else if id = 1 then Except.ok (SpirvType.Float [])
    else if id = 5 then Except.ok SpirvType.Image
    else Except.error ErrorCode.Unhandled
  get_member_name := fun sid mid =>
    if sid = 0 && mid = 0 then Except.ok "x"
    else if sid = 0 && mid = 1 then Except.ok "t"
    else if sid = 0 && mid = 2 then Except.ok "z"
    else Except.error ErrorCode.Unhandled
  get_base_type_id := fun _ => Except.error ErrorCode.Unhandled
  get_shader_resources := Except.ok
    { uniform_buffers := [⟨9, 0, 0, "cb"⟩]
      sampled_images := []
      separate_images := []
      separate_samplers := [] }

/-- A reflection environment with no uniform buffers, one combined sampler
(id 5) and an empty separate-texture list: the two sampler lists have
unequal length, with `sampled_images` the longer one. -/
def astSampledLonger : Ast where
  get_type := fun _ => Except.error ErrorCode.Unhandled
  get_member_name := fun _ _ => Except.error ErrorCode.Unhandled
  get_base_type_id := fun _ => Except.error ErrorCode.Unhandled
  get_shader_resources := Except.ok
    { uniform_buffers := []
      sampled_images := [⟨5, 1, 1, "combined"⟩]
      separate_images := []
      separate_samplers := [] }

/-- A reflection environment with no uniform buffers, one combined sampler
(id 5) and two separate textures `texA`, `texB`: the two sampler lists have
unequal length, with `separate_images` the longer one. -/
def astSeparateLonger : Ast where
  get_type := fun _ => Except.error ErrorCode.Unhandled
  get_member_name := fun _ _ => Except.error ErrorCode.Unhandled
  get_base_type_id := fun _ => Except.error ErrorCode.Unhandled
  get_shader_resources := Except.ok
    { uniform_buffers := []
      sampled_images := [⟨5, 1, 1, "combined"⟩]
      separate_images := [⟨6, 2, 2, "texA"⟩, ⟨7, 3, 3, "texB"⟩]
      separate_samplers := [] }

/-- A reflection environment whose resource-list query itself fails. -/
def astResErr : Ast where
  get_type := fun _ => Except.error ErrorCode.Unhandled
  get_member_name := fun _ _ => Except.error ErrorCode.Unhandled
  get_base_type_id := fun _ => Except.error ErrorCode.Unhandled
  get_shader_resources := Except.error ErrorCode.Unhandled

/-- A reflection environment in which every uniform buffer's own base type
id resolves to a `Struct`, yet the flattener still reaches its panic
branch: buffer base type 0 is a struct whose member `m` is struct-typed
(type 1), but the member's base type id resolves to `Float` (type 2). -/
def astNestedPanic : Ast where
  get_type := fun id =>
    if id = 0 then Except.ok (SpirvType.Struct [1] [])
    else if id = 1 then Except.ok (SpirvType.Struct [] [])
    else if id = 2 then Except.ok (SpirvType.Float [])
    else Except.error ErrorCode.Unhandled
  get_member_name := fun sid mid =>
    if sid = 0 && mid = 0 then Except.ok "m"
    else Except.error ErrorCode.Unhandled
  get_base_type_id := fun id =>
    if id = 1 then Except.ok 2
    else Except.error ErrorCode.Unhandled
  get_shader_resources := Except.ok
    { uniform_buffers := [⟨7, 0, 0, "cb"⟩]
      sampled_images := []
      separate_images := []
      separate_samplers := [] }

/-- `ReachRoot ast root id'` says `id'` is a flattening root reachable
from `root`: `root` itself, or (recursively) the base-type id of a
struct-typed member of a reachable struct — exactly the ids on which
`get_member_names_deep` is invoked when started at `root`. -/
inductive ReachRoot (ast : Ast) : Nat → Nat → Prop where
  | refl (id : Nat) : ReachRoot ast id id
  | step {id : Nat} {mts ar : List Nat} {mt : Nat} {smts sar : List Nat}
      {bt id' : Nat}
      (hty : ast.get_type id = Except.ok (SpirvType.Struct mts ar))
      (hmem : mt ∈ mts)
      (hmty : ast.get_type mt = Except.ok (SpirvType.Struct smts sar))
      (hbase : ast.get_base_type_id mt = Except.ok bt)
      (hrest : ReachRoot ast bt id') : ReachRoot ast id id'

/-- One recursion edge of the flattener: from the struct `id` to the
base-type id `bt` of one of its struct-typed members. The type graph is
acyclic exactly when no id is `childEdge`-reachable from itself; for the
finite graphs of real modules this is equivalent to the existence of a
rank (recursion-depth bound) strictly decreasing along `childEdge`. -/
def childEdge (ast : Ast) (id bt : Nat) : Prop :=
  ∃ mts ar mt smts sar,
    ast.get_type id = Except.ok (SpirvType.Struct mts ar) ∧
    mt ∈ mts ∧
    ast.get_type mt = Except.ok (SpirvType.Struct smts sar) ∧
    ast.get_base_type_id mt = Except.ok bt

/-- A rank function witnessing acyclicity of `astA`'s type graph (its only
recursion edge is from the buffer struct 0 to the element struct 3). -/
def rankA : Nat → Nat := fun id => if id = 0 then 1 else 0

/-! ### Properties of the array index expander -/

lemma renderIndexed_cons (base : String) (i : Nat) (idxs : List Nat) :
    renderIndexed base (i :: idxs) =
      renderIndexed (base ++ "[" ++ toString i ++ "]") idxs := rfl

lemma mem_indexCombos {dims idxs : List Nat} :
    idxs ∈ indexCombos dims ↔ List.Forall₂ (fun i d => i < d) idxs dims := by
  induction dims generalizing idxs with
  | nil =>
    simp [indexCombos, List.forall₂_nil_right_iff]
  | cons d ds ih =>
    simp only [indexCombos, List.mem_flatMap, List.mem_map, List.mem_range]
    constructor
    · rintro ⟨i, hi, is, his, rfl⟩
      exact List.Forall₂.cons hi (ih.mp his)
    · intro h
      cases h with
      | cons h1 h2 => exact ⟨_, h1, _, ih.mpr h2, rfl⟩

lemma array_member_names_go_mem (base : String) (ds : List Nat) :
    ∀ (rank : Nat) (acc : List String), rank ≠ 0 →
      ∀ s, s ∈ array_member_names_go base ds rank acc ↔
        ∃ p ∈ acc, ∃ idxs ∈ indexCombos ds, s = renderIndexed p idxs := by
  induction ds with
  | nil =>
    intro rank acc _ s
    simp [array_member_names_go, indexCombos, renderIndexed]
  | cons d rest ih =>
    intro rank acc hrank s
    simp only [array_member_names_go, if_neg hrank]
    rw [ih (rank + 1) _ (Nat.succ_ne_zero rank) s]
    simp only [List.mem_flatMap, List.mem_map, List.mem_range, indexCombos]
    constructor
    · rintro ⟨p, ⟨i, hi, q, hq, rfl⟩, idxs, hidxs, rfl⟩
      exact ⟨q, hq, i :: idxs, ⟨i, hi, idxs, hidxs, rfl⟩, rfl⟩
    · rintro ⟨p, hp, _, ⟨i, hi, idxs, hidxs, rfl⟩, rfl⟩
      exact ⟨p ++ "[" ++ toString i ++ "]", ⟨i, hi, p, hp, rfl⟩, idxs, hidxs, rfl⟩

lemma mem_array_member_names (base : String) (dims : List Nat) (s : String) :
    s ∈ array_member_names base dims ↔
      ∃ idxs ∈ indexCombos dims, s = renderIndexed base idxs := by
  cases dims with
  | nil => simp [array_member_names, indexCombos, renderIndexed]
  | cons d rest =>
    have hstep : array_member_names base (d :: rest) =
        array_member_names_go base rest 1
          ((List.range d).map (fun element =>
            base ++ "[" ++ toString element ++ "]")) := rfl
    rw [hstep, array_member_names_go_mem base rest 1 _ one_ne_zero s]
    simp only [List.mem_map, List.mem_range, indexCombos, List.mem_flatMap]
    constructor
    · rintro ⟨p, ⟨i, hi, rfl⟩, idxs, hidxs, rfl⟩
      exact ⟨i :: idxs, ⟨i, hi, idxs, hidxs, rfl⟩, rfl⟩
    · rintro ⟨_, ⟨i, hi, idxs, hidxs, rfl⟩, rfl⟩
      exact ⟨base ++ "[" ++ toString i ++ "]", ⟨i, hi, rfl⟩, idxs, hidxs, rfl⟩

lemma forall₂_lt_no_zero {idxs dims : List Nat}
    (h : List.Forall₂ (fun i d => i < d) idxs dims) (h0 : 0 ∈ dims) :
    False := by
  induction h with
  | nil => simp at h0
  | cons hid _ ih =>
    rcases List.mem_cons.mp h0 with h | h
    · omega
    · exact ih h

lemma sum_map_const_nat {α : Type} (l : List α) (c : Nat) :
    (l.map (fun _ => c)).sum = l.length * c := by
  induction l with
  | nil => simp
  | cons a l ih => simp [ih]; ring

lemma array_member_names_go_length (base : String) (ds : List Nat) :
    ∀ (rank : Nat) (acc : List String), rank ≠ 0 →
      (array_member_names_go base ds rank acc).length = acc.length * ds.prod := by
  induction ds with
  | nil => intro rank acc _; simp [array_member_names_go]
  | cons d rest ih =>
    intro rank acc hrank
    simp only [array_member_names_go, if_neg hrank]
    rw [ih (rank + 1) _ (Nat.succ_ne_zero rank)]
    simp [List.length_flatMap, Function.comp_def, List.length_map,
      sum_map_const_nat, List.length_range]
    ring

/-- The expander produces exactly `∏ dims` names. -/
lemma length_array_member_names (base : String) (dims : List Nat) :
    (array_member_names base dims).length = dims.prod := by
  cases dims with
  | nil => simp [array_member_names]
  | cons d rest =>
    have hstep : array_member_names base (d :: rest) =
        array_member_names_go base rest 1
          ((List.range d).map (fun element =>
            base ++ "[" ++ toString element ++ "]")) := rfl
    rw [hstep, array_member_names_go_length base rest 1 _ one_ne_zero]
    simp

/-- C2: the array index expander returns exactly the set
`{ base[i0][i1]…[in] | ij < dims[j] }`, with `i0` indexing the first-listed
dimension; an empty dimension list gives the singleton `{base}`, and a zero
dimension anywhere gives the empty result (no members, not an error). -/
theorem array_member_names_matches_spec (base : String) (dims : List Nat) :
    (dims = [] → array_member_names base dims = [base]) ∧
    (0 ∈ dims → array_member_names base dims = []) ∧
    (∀ s, s ∈ array_member_names base dims ↔
      ∃ idxs, List.Forall₂ (fun i d => i < d) idxs dims ∧
        s = renderIndexed base idxs) := by
  refine ⟨fun h => by subst h; rfl, fun h0 => ?_, fun s => ?_⟩
  · rw [List.eq_nil_iff_forall_not_mem]
    intro s hs
    rcases (mem_array_member_names base dims s).mp hs with ⟨idxs, hidxs, _⟩
    exact forall₂_lt_no_zero (mem_indexCombos.mp hidxs) h0
  · rw [mem_array_member_names]
    constructor
    · rintro ⟨idxs, hidxs, rfl⟩
      exact ⟨idxs, mem_indexCombos.mp hidxs, rfl⟩
    · rintro ⟨idxs, hidxs, rfl⟩
      exact ⟨idxs, mem_indexCombos.mpr hidxs, rfl⟩

/-- Witness for C2 at concrete inputs: empty dims, a zero dim, and a
member of `array_member_names "a" [2]`. -/
theorem array_member_names_matches_spec_witness :
    array_member_names "b" [] = ["b"] ∧
    array_member_names "a" [2, 0, 3] = [] ∧
    "a[1]" ∈ array_member_names "a" [2] := by
  refine ⟨(array_member_names_matches_spec "b" []).1 rfl,
    (array_member_names_matches_spec "a" [2, 0, 3]).2.1 (by decide),
    ((array_member_names_matches_spec "a" [2]).2.2 "a[1]").mpr
      ⟨[1], ?_, rfl⟩⟩
  exact List.Forall₂.cons (by decide) List.Forall₂.nil

/-! ### Properties of the struct flattener -/

lemma member_names_loop_append_ok (ast : Ast)
    (deep : Nat → RunResult (List String)) (sid : Nat) (l2 : List Nat) :
    ∀ (l1 : List Nat) (mid : Nat) (acc : List String),
      member_names_loop ast deep sid l1 mid = RunResult.ok acc →
      member_names_loop ast deep sid (l1 ++ l2) mid =
        (match member_names_loop ast deep sid l2 (mid + l1.length) with
         | RunResult.ok names2 => RunResult.ok (acc ++ names2)
         | r => r) := by
  intro l1
  induction l1 with
  | nil =>
    intro mid acc h
    simp only [member_names_loop] at h
    cases h
    simp only [List.nil_append, List.length_nil, Nat.add_zero]
    cases h2 : member_names_loop ast deep sid l2 mid <;> simp
  | cons mt rest ih =>
    intro mid acc h
    simp only [List.cons_append]
    simp only [member_names_loop] at h ⊢
    cases hn : ast.get_member_name sid mid <;> simp only [hn] at h ⊢
    case error => cases h
    case ok name =>
    cases hty : ast.get_type mt <;> simp only [hty] at h ⊢
    case error => cases h
    case ok ty =>
    cases ty <;> simp only [] at h ⊢
    case Image => cases h
    case SampledImage => cases h
    case Sampler => cases h
    case AtomicCounter => cases h
    case Void => cases h
    case Unknown => cases h
    case Struct smts ar =>
      cases hb : ast.get_base_type_id mt <;> simp only [hb] at h ⊢
      case error => cases h
      case ok bt =>
      cases hd : deep bt <;> simp only [hd] at h ⊢
      case err => cases h
      case panic => cases h
      case outOfFuel => cases h
      case ok children =>
      cases h1 : member_names_loop ast deep sid rest (mid + 1) <;>
        simp only [h1] at h
      case err => cases h
      case panic => cases h
      case outOfFuel => cases h
      case ok names =>
      cases h
      rw [ih (mid + 1) names h1]
      simp only [List.length_cons]
      have harith : mid + 1 + rest.length = mid + (rest.length + 1) := by omega
      rw [harith]
      cases h2 : member_names_loop ast deep sid l2 (mid + (rest.length + 1)) <;>
        simp [List.append_assoc]
    all_goals {
      cases h1 : member_names_loop ast deep sid rest (mid + 1) <;>
        simp only [h1] at h
      case err => cases h
      case panic => cases h
      case outOfFuel => cases h
      case ok names =>
      cases h
      rw [ih (mid + 1) names h1]
      simp only [List.length_cons]
      have harith : mid + 1 + rest.length = mid + (rest.length + 1) := by omega
      rw [harith]
      cases h2 : member_names_loop ast deep sid l2 (mid + (rest.length + 1)) <;>
        simp [List.append_assoc]
    }

/-- C4: if a struct member resolves to an opaque type descriptor (image,
combined-sampled-image, sampler, atomic-counter, void or unknown), and all
members before it flatten successfully, then flattening the struct fails
immediately with a `CompilationFailed` error whose message contains that
member's debug name; the sibling list `rest` after the member is
universally quantified and absent from the conclusion, so no sibling after
it is ever flattened. -/
theorem opaque_member_fails_with_name
    (ast : Ast) (fuel struct_type_id : Nat) (pre : List Nat)
    (member_type : Nat) (rest : List Nat) (ar : List Nat)
    (member_base_name : String) (ty : SpirvType) (acc : List String)
    (hroot : ast.get_type struct_type_id =
      Except.ok (SpirvType.Struct (pre ++ member_type :: rest) ar))
    (hpre : member_names_loop ast (fun id => get_member_names_deep ast fuel id)
      struct_type_id pre 0 = RunResult.ok acc)
    (hname : ast.get_member_name struct_type_id pre.length =
      Except.ok member_base_name)
    (hty : ast.get_type member_type = Except.ok ty)
    (hop : isOpaqueTy ty = true) :
    get_member_names_deep ast (fuel + 1) struct_type_id =
      RunResult.err (Error.CompilationFailed
        ("member of " ++ member_base_name ++ " had an unsupported type")) ∧
    ∃ p q, "member of " ++ member_base_name ++ " had an unsupported type" =
      p ++ member_base_name ++ q := by
  constructor
  · have hstep : get_member_names_deep ast (fuel + 1) struct_type_id =
        member_names_loop ast (fun id => get_member_names_deep ast fuel id)
          struct_type_id (pre ++ member_type :: rest) 0 := by
      simp [get_member_names_deep, hroot]
    rw [hstep, member_names_loop_append_ok ast _ struct_type_id
      (member_type :: rest) pre 0 acc hpre]
    have h0 : 0 + pre.length = pre.length := by omega
    rw [h0]
    simp only [member_names_loop, hname, hty]
    cases ty <;> simp_all [isOpaqueTy]
  · exact ⟨"member of ", " had an unsupported type", rfl⟩

/-- Witness for C4: in `astOpq`, member `t` (index 1) of struct type 0 is
an image; flattening fails with an error naming `t`, even though a further
sibling `z` follows it. -/
theorem opaque_member_fails_with_name_witness :
    get_member_names_deep astOpq (3 + 1) 0 =
      RunResult.err (Error.CompilationFailed
        ("member of " ++ "t" ++ " had an unsupported type")) ∧
    ∃ p q, "member of " ++ "t" ++ " had an unsupported type" =
      p ++ "t" ++ q :=
  opaque_member_fails_with_name astOpq 3 0 [1] 5 [1] [] "t" SpirvType.Image
    ["x"] rfl rfl rfl rfl rfl

/-- C5: a struct-typed member with array dimensions `sarr` whose element
struct flattens (recursively) to `child_names` — `M` leaf paths —
contributes exactly `M * sarr.prod` paths to its parent struct's
flattening. -/
theorem struct_array_member_path_count
    (ast : Ast) (fuel struct_type_id member_type : Nat) (rest : List Nat)
    (member_id : Nat) (member_base_name : String) (smts sarr : List Nat)
    (member_base_type : Nat) (child_names names_rest : List String)
    (hname : ast.get_member_name struct_type_id member_id =
      Except.ok member_base_name)
    (hty : ast.get_type member_type = Except.ok (SpirvType.Struct smts sarr))
    (hbase : ast.get_base_type_id member_type = Except.ok member_base_type)
    (hchild : get_member_names_deep ast fuel member_base_type =
      RunResult.ok child_names)
    (hrest : member_names_loop ast (fun id => get_member_names_deep ast fuel id)
      struct_type_id rest (member_id + 1) = RunResult.ok names_rest) :
    ∃ contrib,
      member_names_loop ast (fun id => get_member_names_deep ast fuel id)
        struct_type_id (member_type :: rest) member_id =
        RunResult.ok (contrib ++ names_rest) ∧
      contrib.length = child_names.length * sarr.prod := by
  refine ⟨(array_member_names member_base_name sarr).flatMap
    (fun element_name => child_names.map (fun child_name =>
      element_name ++ "." ++ child_name)), ?_, ?_⟩
  · simp only [member_names_loop, hname, hty, hbase, hchild, hrest]
  · simp [List.length_flatMap, Function.comp_def, List.length_map,
      sum_map_const_nat, length_array_member_names]
    ring

/-- Witness for C5: in `astA`, member `s` (a 2-element array of a struct
with the single leaf `y`) contributes `1 * 2` paths. -/
theorem struct_array_member_path_count_witness :
    ∃ contrib,
      member_names_loop astA (fun id => get_member_names_deep astA 9 id)
        0 ([2] : List Nat) 1 =
        RunResult.ok (contrib ++ ([] : List String)) ∧
      contrib.length = (["y"] : List String).length * ([2] : List Nat).prod :=
  struct_array_member_path_count astA 9 0 2 [] 1 "s" [] [2] 3 ["y"] []
    rfl rfl rfl rfl rfl

/-! ### Behaviour of the mapping builder on mismatched resource lists -/

/-- C1 (divergence of the code from the claim): `find_uniform_mappings`
performs no length check on the two sampler resource lists. When
`sampled_images` is longer than `separate_images` the indexing
`separate_images[image_index]` aborts abruptly (an out-of-bounds panic),
and when `separate_images` is longer its trailing entries are silently
ignored and the build succeeds; in neither case is any
`ResourceListMismatch`-style error returned (no such variant exists in
`error.rs`). -/
theorem unequal_sampler_lists_panic_or_truncate :
    find_uniform_mappings astSampledLonger 1 =
      RunResult.panic "index out of bounds" ∧
    find_uniform_mappings astSeparateLonger 1 =
      RunResult.ok [("_5", "texA")] := by
  constructor <;> rfl

/-- C9: the mapping builder is deterministic — two runs on reflection
inputs that answer every query identically produce identical results, and
in particular mapping tables with identical key-value sets. -/
theorem find_uniform_mappings_deterministic
    (ast1 ast2 : Ast) (fuel : Nat)
    (hty : ∀ id, ast1.get_type id = ast2.get_type id)
    (hname : ∀ sid mid, ast1.get_member_name sid mid =
      ast2.get_member_name sid mid)
    (hbase : ∀ id, ast1.get_base_type_id id = ast2.get_base_type_id id)
    (hres : ast1.get_shader_resources = ast2.get_shader_resources) :
    find_uniform_mappings ast1 fuel = find_uniform_mappings ast2 fuel ∧
    (∀ m1 m2, find_uniform_mappings ast1 fuel = RunResult.ok m1 →
      find_uniform_mappings ast2 fuel = RunResult.ok m2 →
      ∀ k v, (k, v) ∈ m1 ↔ (k, v) ∈ m2) := by
  have heq : ast1 = ast2 := by
    cases ast1
    cases ast2
    simp only [Ast.mk.injEq]
    exact ⟨funext hty, funext (fun sid => funext (fun mid => hname sid mid)),
      funext hbase, hres⟩
  subst heq
  refine ⟨rfl, fun m1 m2 e1 e2 k v => ?_⟩
  rw [e1] at e2
  cases e2
  exact Iff.rfl

/-- Witness for C9: two runs on the concrete environment `astA`. -/
theorem find_uniform_mappings_deterministic_witness :
    find_uniform_mappings astA 10 = find_uniform_mappings astA 10 ∧
    (∀ m1 m2, find_uniform_mappings astA 10 = RunResult.ok m1 →
      find_uniform_mappings astA 10 = RunResult.ok m2 →
      ∀ k v, (k, v) ∈ m1 ↔ (k, v) ∈ m2) :=
  find_uniform_mappings_deterministic astA astA 10
    (fun _ => rfl) (fun _ _ => rfl) (fun _ => rfl) rfl

/-! ### Fail-fast behaviour of the mapping builder -/

lemma uniform_buffers_loop_ok_inv (ast : Ast) (fuel : Nat) :
    ∀ (bufs : List Resource) (acc : List (String × String))
      (m : List (String × String)),
      uniform_buffers_loop ast fuel bufs acc = RunResult.ok m →
      ∀ b ∈ bufs, ∃ names,
        get_member_names_deep ast fuel b.base_type_id = RunResult.ok names := by
  intro bufs
  induction bufs with
  | nil => intro acc m _ b hb; cases hb
  | cons b rest ih =>
    intro acc m h b' hb'
    simp only [uniform_buffers_loop] at h
    cases hd : get_member_names_deep ast fuel b.base_type_id <;>
      simp only [hd] at h
    case err => cases h
    case panic => cases h
    case outOfFuel => cases h
    case ok names =>
    rcases List.mem_cons.mp hb' with rfl | hb'
    · exact ⟨names, hd⟩
    · exact ih _ m h b' hb'

lemma uniform_buffers_loop_err_of (ast : Ast) (fuel : Nat) :
    ∀ (bufs : List Resource) (acc : List (String × String)),
      (∀ b ∈ bufs,
        (∃ names, get_member_names_deep ast fuel b.base_type_id =
          RunResult.ok names) ∨
        (∃ e, get_member_names_deep ast fuel b.base_type_id =
          RunResult.err e)) →
      (∃ b ∈ bufs, ∃ e,
        get_member_names_deep ast fuel b.base_type_id = RunResult.err e) →
      ∃ e', uniform_buffers_loop ast fuel bufs acc = RunResult.err e' := by
  intro bufs
  induction bufs with
  | nil => intro acc _ hex; simp at hex
  | cons b rest ih =>
    intro acc hterm hex
    rcases hterm b (List.mem_cons_self b rest) with ⟨names, hok⟩ | ⟨e, herr⟩
    · have hrest : ∃ b' ∈ rest, ∃ e,
          get_member_names_deep ast fuel b'.base_type_id = RunResult.err e := by
        rcases hex with ⟨b', hb', e, he⟩
        rcases List.mem_cons.mp hb' with rfl | hb'
        · rw [hok] at he; cases he
        · exact ⟨b', hb', e, he⟩
      obtain ⟨e', hloop⟩ := ih _ (fun b' hb' => hterm b' (List.mem_cons_of_mem b hb')) hrest
      refine ⟨e', ?_⟩
      simp only [uniform_buffers_loop, hok]
      exact hloop
    · refine ⟨e, ?_⟩
      simp only [uniform_buffers_loop, herr]

/-- C6: any reflection-query failure or opaque buffer member aborts the
whole mapping build with an error. Part 1: a failing resource-list query
yields the converted error at once. Part 2: if every buffer flattening
terminates normally (returns `Ok` or `Err`) and at least one of them
returns an `Err` (as every failed type/name/base-type query and every
opaque member does), the build returns an `Err`. Part 3 (no partial
table): whenever the build returns a table, the resource query and every
buffer flattening succeeded. -/
theorem find_uniform_mappings_fail_fast (ast : Ast) (fuel : Nat) :
    (∀ e, ast.get_shader_resources = Except.error e →
      find_uniform_mappings ast fuel = RunResult.err (errorFromCode e)) ∧
    (∀ sr, ast.get_shader_resources = Except.ok sr →
      (∀ b ∈ sr.uniform_buffers,
        (∃ names, get_member_names_deep ast fuel b.base_type_id =
          RunResult.ok names) ∨
        (∃ e, get_member_names_deep ast fuel b.base_type_id =
          RunResult.err e)) →
      (∃ b ∈ sr.uniform_buffers, ∃ e,
        get_member_names_deep ast fuel b.base_type_id = RunResult.err e) →
      ∃ e', find_uniform_mappings ast fuel = RunResult.err e') ∧
    (∀ m, find_uniform_mappings ast fuel = RunResult.ok m →
      ∃ sr, ast.get_shader_resources = Except.ok sr ∧
        ∀ b ∈ sr.uniform_buffers, ∃ names,
          get_member_names_deep ast fuel b.base_type_id =
            RunResult.ok names) := by
  refine ⟨fun e he => ?_, fun sr hsr hterm hex => ?_, fun m hm => ?_⟩
  · simp only [find_uniform_mappings, he]
  · obtain ⟨e', hloop⟩ :=
      uniform_buffers_loop_err_of ast fuel sr.uniform_buffers [] hterm hex
    exact ⟨e', by simp only [find_uniform_mappings, hsr, hloop]⟩
  · rcases hres : ast.get_shader_resources with e | sr
    · simp only [find_uniform_mappings, hres] at hm; cases hm
    · refine ⟨sr, rfl, ?_⟩
      simp only [find_uniform_mappings, hres] at hm
      cases hloop : uniform_buffers_loop ast fuel sr.uniform_buffers [] <;>
        simp only [hloop] at hm
      case err => cases hm
      case panic => cases hm
      case outOfFuel => cases hm
      case ok m' => exact uniform_buffers_loop_ok_inv ast fuel _ _ m' hloop

/-- Witness for C6: in `astOpq` the single buffer's flattening fails on the
opaque member `t`, so the whole build errors; in `astResErr` the resource
query fails and the build returns the converted error. -/
theorem find_uniform_mappings_fail_fast_witness :
    (∃ e', find_uniform_mappings astOpq 2 = RunResult.err e') ∧
    find_uniform_mappings astResErr 1 =
      RunResult.err (errorFromCode ErrorCode.Unhandled) := by
  constructor
  · refine (find_uniform_mappings_fail_fast astOpq 2).2.1
      { uniform_buffers := [⟨9, 0, 0, "cb"⟩]
        sampled_images := []
        separate_images := []
        separate_samplers := [] } rfl ?_ ?_
    · intro b hb
      rcases List.mem_singleton.mp hb with rfl
      exact Or.inr ⟨Error.CompilationFailed "member of t had an unsupported type",
        by decide⟩
    · exact ⟨⟨9, 0, 0, "cb"⟩, List.mem_singleton_self _,
        Error.CompilationFailed "member of t had an unsupported type", by decide⟩
  · exact (find_uniform_mappings_fail_fast astResErr 1).1 ErrorCode.Unhandled rfl

/-! ### The panic branch of the flattener -/

lemma member_names_loop_no_panic (ast : Ast)
    (deep : Nat → RunResult (List String)) (sid : Nat) :
    ∀ (l : List Nat),
      (∀ mt ∈ l, ∀ smts sar bt,
        ast.get_type mt = Except.ok (SpirvType.Struct smts sar) →
        ast.get_base_type_id mt = Except.ok bt →
        ∀ msg, deep bt ≠ RunResult.panic msg) →
      ∀ (mid : Nat) (msg : String),
        member_names_loop ast deep sid l mid ≠ RunResult.panic msg := by
  intro l
  induction l with
  | nil => intro _ mid msg h; cases h
  | cons mt rest ih =>
    intro hnp mid msg h
    simp only [member_names_loop] at h
    cases hn : ast.get_member_name sid mid <;> simp only [hn] at h
    case error => cases h
    case ok name =>
    cases hty : ast.get_type mt <;> simp only [hty] at h
    case error => cases h
    case ok ty =>
    cases ty <;> simp only [] at h
    case Image => cases h
    case SampledImage => cases h
    case Sampler => cases h
    case AtomicCounter => cases h
    case Void => cases h
    case Unknown => cases h
    case Struct smts sar =>
      cases hb : ast.get_base_type_id mt <;> simp only [hb] at h
      case error => cases h
      case ok bt =>
      cases hd : deep bt <;> simp only [hd] at h
      case err => cases h
      case outOfFuel => cases h
      case panic pmsg =>
        exact hnp mt (List.mem_cons_self mt rest) smts sar bt hty hb pmsg hd
      case ok children =>
      cases h1 : member_names_loop ast deep sid rest (mid + 1) <;>
        simp only [h1] at h
      case ok => cases h
      case err => cases h
      case outOfFuel => cases h
      case panic pmsg =>
        exact ih (fun mt' hm' => hnp mt' (List.mem_cons_of_mem mt hm'))
          (mid + 1) pmsg h1
    all_goals {
      cases h1 : member_names_loop ast deep sid rest (mid + 1) <;>
        simp only [h1] at h
      case ok => cases h
      case err => cases h
      case outOfFuel => cases h
      case panic pmsg =>
        exact ih (fun mt' hm' => hnp mt' (List.mem_cons_of_mem mt hm'))
          (mid + 1) pmsg h1
    }

lemma get_member_names_deep_no_panic (ast : Ast) :
    ∀ (fuel id : Nat),
      (∀ id', ReachRoot ast id id' → ∃ mts ar,
        ast.get_type id' = Except.ok (SpirvType.Struct mts ar)) →
      ∀ msg, get_member_names_deep ast fuel id ≠ RunResult.panic msg := by
  intro fuel
  induction fuel with
  | zero => intro id _ msg h; cases h
  | succ fuel ih =>
    intro id hws msg h
    obtain ⟨mts, ar, hid⟩ := hws id (ReachRoot.refl id)
    simp only [get_member_names_deep, hid] at h
    exact member_names_loop_no_panic ast
      (fun id2 => get_member_names_deep ast fuel id2) id mts
      (fun mt hmt smts sar bt hmty hbase msg' =>
        ih bt (fun id' h' => hws id' (ReachRoot.step hid hmt hmty hbase h')) msg')
      0 msg h

/-- Counterexample to C10 as stated: in `astNestedPanic` every uniform
buffer's base type id (here 0, for the single buffer) resolves to a
`Struct` descriptor, yet the whole build still aborts through the
`panic!("uniform buffer must be a struct")` branch, because a nested
member's base type id resolves to `Float`. -/
theorem flattener_panics_despite_struct_buffer_bases :
    (∀ b ∈ [(⟨7, 0, 0, "cb"⟩ : Resource)], ∃ mts ar,
      astNestedPanic.get_type b.base_type_id =
        Except.ok (SpirvType.Struct mts ar)) ∧
    astNestedPanic.get_shader_resources = Except.ok
      { uniform_buffers := [⟨7, 0, 0, "cb"⟩]
        sampled_images := []
        separate_images := []
        separate_samplers := [] } ∧
    find_uniform_mappings astNestedPanic 5 =
      RunResult.panic "uniform buffer must be a struct" := by
  refine ⟨?_, rfl, by decide⟩
  intro b hb
  rcases List.mem_singleton.mp hb with rfl
  exact ⟨[1], [], rfl⟩

/-- C10 (amended): invoked on a type id whose descriptor is not `Struct`,
the flattener aborts abruptly with `panic!("uniform buffer must be a
struct")` rather than returning an error value; and this branch is
unreachable under the strengthened precondition that every *reachable*
flattening root — the invoked id and, recursively, the base-type ids of
struct-typed members — resolves to a `Struct` descriptor (the precondition
on buffer base ids alone does not suffice; see the counterexample). -/
theorem flattener_panic_on_non_struct_and_unreachability
    (ast : Ast) (fuel id : Nat) :
    (∀ ty, ast.get_type id = Except.ok ty →
      (∀ mts ar, ty ≠ SpirvType.Struct mts ar) →
      get_member_names_deep ast (fuel + 1) id =
        RunResult.panic "uniform buffer must be a struct") ∧
    ((∀ id', ReachRoot ast id id' → ∃ mts ar,
        ast.get_type id' = Except.ok (SpirvType.Struct mts ar)) →
      ∀ msg, get_member_names_deep ast fuel id ≠ RunResult.panic msg) := by
  constructor
  · intro ty hty hns
    simp only [get_member_names_deep, hty]
  · exact get_member_names_deep_no_panic ast fuel id

/-- Witness for the amended C10: in `astA`, type 1 is `Float`, so invoking
the flattener on it panics; in `astOpq`, every root reachable from the
buffer base type 0 is a struct, so no invocation from it panics. -/
theorem flattener_panic_on_non_struct_and_unreachability_witness :
    get_member_names_deep astA (1 + 1) 1 =
      RunResult.panic "uniform buffer must be a struct" ∧
    (∀ msg, get_member_names_deep astOpq 3 0 ≠ RunResult.panic msg) := by
  constructor
  · exact (flattener_panic_on_non_struct_and_unreachability astA 1 1).1
      (SpirvType.Float []) rfl (fun mts ar h => by cases h)
  · refine (flattener_panic_on_non_struct_and_unreachability astOpq 3 0).2 ?_
    intro id' h
    cases h with
    | refl => exact ⟨[1, 5, 1], [], rfl⟩
    | step hty hmem hmty hbase hrest =>
      rename_i mts ar mt smts sar bt
      injection hty with h1
      injection h1 with hmts har
      subst hmts
      simp only [List.mem_cons, List.not_mem_nil, or_false] at hmem
      rcases hmem with rfl | rfl | rfl
      · injection hmty with h2; cases h2
      · injection hmty with h2; cases h2
      · injection hmty with h2; cases h2

/-! ### Decimal representations of ids: digit characters, injectivity -/

lemma digitVal_digitChar {m : Nat} (h : m < 10) :
    digitVal (Nat.digitChar m) = m := by
  interval_cases m <;> rfl

lemma digitChar_ne_dot {m : Nat} (h : m < 10) : Nat.digitChar m ≠ '.' := by
  interval_cases m <;> decide

lemma toDigitsCore_append (b : Nat) : ∀ (f n : Nat) (acc : List Char),
    Nat.toDigitsCore b f n acc = Nat.toDigitsCore b f n [] ++ acc := by
  intro f
  induction f with
  | zero => intro n acc; rfl
  | succ f ih =>
    intro n acc
    simp only [Nat.toDigitsCore]
    by_cases h : n / b = 0
    · simp [h]
    · simp only [if_neg h]
      rw [ih (n / b) (Nat.digitChar (n % b) :: acc),
        ih (n / b) [Nat.digitChar (n % b)]]
      simp

lemma mem_toDigitsCore (b : Nat) (hb : 0 < b) : ∀ (f n : Nat)
    (acc : List Char) (c : Char), c ∈ Nat.toDigitsCore b f n acc →
    c ∈ acc ∨ ∃ m, m < b ∧ c = Nat.digitChar m := by
  intro f
  induction f with
  | zero => intro n acc c hc; exact Or.inl hc
  | succ f ih =>
    intro n acc c hc
    simp only [Nat.toDigitsCore] at hc
    by_cases h : n / b = 0
    · rw [if_pos h] at hc
      rcases List.mem_cons.mp hc with rfl | hc
      · exact Or.inr ⟨n % b, Nat.mod_lt n hb, rfl⟩
      · exact Or.inl hc
    · rw [if_neg h] at hc
      rcases ih (n / b) _ c hc with hc' | hc'
      · rcases List.mem_cons.mp hc' with rfl | hc''
        · exact Or.inr ⟨n % b, Nat.mod_lt n hb, rfl⟩
        · exact Or.inl hc''
      · exact Or.inr hc'

lemma toDigits_ne_dot {n : Nat} {c : Char} (hc : c ∈ Nat.toDigits 10 n) :
    c ≠ '.' := by
  rcases mem_toDigitsCore 10 (by omega) (n + 1) n [] c hc with h | ⟨m, hm, rfl⟩
  · cases h
  · exact digitChar_ne_dot hm

lemma decode_toDigitsCore : ∀ (f n : Nat), n < f →
    decodeDigitList (Nat.toDigitsCore 10 f n []) = n := by
  intro f
  induction f with
  | zero => intro n h; omega
  | succ f ih =>
    intro n h
    simp only [Nat.toDigitsCore]
    by_cases h0 : n / 10 = 0
    · rw [if_pos h0]
      show 0 * 10 + digitVal (Nat.digitChar (n % 10)) = n
      rw [digitVal_digitChar (show n % 10 < 10 by omega)]
      omega
    · rw [if_neg h0]
      rw [toDigitsCore_append 10 f (n / 10) [Nat.digitChar (n % 10)]]
      have hlt : n / 10 < f := by
        have h1 : n / 10 < n := Nat.div_lt_self (by omega) (by omega)
        omega
      unfold decodeDigitList
      rw [List.foldl_append]
      show decodeDigitList (Nat.toDigitsCore 10 f (n / 10) []) * 10 +
        digitVal (Nat.digitChar (n % 10)) = n
      rw [ih (n / 10) hlt, digitVal_digitChar (show n % 10 < 10 by omega)]
      omega

lemma toDigits_injective {m n : Nat}
    (h : Nat.toDigits 10 m = Nat.toDigits 10 n) : m = n := by
  have hm := decode_toDigitsCore (m + 1) m (Nat.lt_succ_self m)
  have hn := decode_toDigitsCore (n + 1) n (Nat.lt_succ_self n)
  calc m = decodeDigitList (Nat.toDigitsCore 10 (m + 1) m []) := hm.symm
    _ = decodeDigitList (Nat.toDigitsCore 10 (n + 1) n []) := by
        exact congrArg decodeDigitList h
    _ = n := hn

lemma append_sep_inj {sep : Char} : ∀ (xs ys ps qs : List Char),
    (∀ c ∈ xs, c ≠ sep) → (∀ c ∈ ys, c ≠ sep) →
    xs ++ sep :: ps = ys ++ sep :: qs → xs = ys ∧ ps = qs := by
  intro xs
  induction xs with
  | nil =>
    intro ys ps qs _ hys h
    cases ys with
    | nil =>
      simp only [List.nil_append, List.cons.injEq] at h
      exact ⟨rfl, h.2⟩
    | cons y ys' =>
      simp only [List.nil_append, List.cons_append, List.cons.injEq] at h
      exact absurd h.1.symm (hys y (List.mem_cons_self y ys'))
  | cons x xs' ih =>
    intro ys ps qs hxs hys h
    cases ys with
    | nil =>
      simp only [List.cons_append, List.nil_append, List.cons.injEq] at h
      exact absurd h.1 (hxs x (List.mem_cons_self x xs'))
    | cons y ys' =>
      simp only [List.cons_append, List.cons.injEq] at h
      obtain ⟨rfl, h2⟩ := h
      obtain ⟨h3, h4⟩ :=
        ih ys' ps qs (fun c hc => hxs c (List.mem_cons_of_mem x hc))
          (fun c hc => hys c (List.mem_cons_of_mem x hc)) h2
      exact ⟨by rw [h3], h4⟩

lemma data_bufferKey (id : Nat) (p : String) :
    (bufferKey id p).data = '_' :: (Nat.toDigits 10 id ++ '.' :: p.data) := by
  show ((("_" ++ toString id) ++ ".") ++ p).data = _
  simp only [String.data_append]
  show (['_'] ++ (toString id).data ++ ['.']) ++ p.data = _
  have hdig : (toString id).data = Nat.toDigits 10 id := rfl
  rw [hdig]
  simp

lemma data_samplerKey (id : Nat) :
    (samplerKey id).data = '_' :: Nat.toDigits 10 id := by
  show ("_" ++ toString id).data = _
  simp only [String.data_append]
  show ['_'] ++ (toString id).data = _
  have hdig : (toString id).data = Nat.toDigits 10 id := rfl
  rw [hdig]
  simp

lemma bufferKey_inj {i j : Nat} {p q : String}
    (h : bufferKey i p = bufferKey j q) : i = j ∧ p = q := by
  have hd := congrArg String.data h
  rw [data_bufferKey, data_bufferKey] at hd
  simp only [List.cons.injEq, true_and] at hd
  obtain ⟨h1, h2⟩ := append_sep_inj (Nat.toDigits 10 i) (Nat.toDigits 10 j)
    p.data q.data (fun c hc => toDigits_ne_dot hc)
    (fun c hc => toDigits_ne_dot hc) hd
  exact ⟨toDigits_injective h1, String.ext h2⟩

lemma samplerKey_inj {i j : Nat} (h : samplerKey i = samplerKey j) :
    i = j := by
  have hd := congrArg String.data h
  rw [data_samplerKey, data_samplerKey] at hd
  simp only [List.cons.injEq, true_and] at hd
  exact toDigits_injective hd

lemma samplerKey_ne_bufferKey (i j : Nat) (q : String) :
    samplerKey i ≠ bufferKey j q := by
  intro h
  have hd := congrArg String.data h
  rw [data_samplerKey, data_bufferKey] at hd
  simp only [List.cons.injEq, true_and] at hd
  have : ('.' : Char) ∈ Nat.toDigits 10 i := by
    rw [hd]
    exact List.mem_append_right _ (List.mem_cons_self _ _)
  exact toDigits_ne_dot this rfl

/-! ### The buffer pass inserts pairwise-distinct keys -/

lemma insertMapping_fresh {m : List (String × String)} {k v : String}
    (h : k ∉ m.map Prod.fst) : insertMapping m k v = m ++ [(k, v)] := by
  unfold insertMapping
  congr 1
  apply List.filter_eq_self.mpr
  intro p hp
  simp only [Bool.not_eq_true', beq_eq_false_iff_ne]
  exact fun he => h (he ▸ List.mem_map_of_mem Prod.fst hp)

lemma insert_names_fold (id : Nat) : ∀ (names : List String)
    (acc : List (String × String)),
    (names.map (bufferKey id)).Nodup →
    (∀ n ∈ names, bufferKey id n ∉ acc.map Prod.fst) →
    names.foldl (fun acc2 member_name =>
      insertMapping acc2 ("_" ++ toString id ++ "." ++ member_name)
        member_name) acc
      = acc ++ bufferEntries id names := by
  intro names
  induction names with
  | nil => intro acc _ _; simp [bufferEntries]
  | cons n rest ih =>
    intro acc hnd hfresh
    simp only [List.foldl_cons]
    have hkey : ("_" ++ toString id ++ "." ++ n) = bufferKey id n := rfl
    rw [hkey, insertMapping_fresh (hfresh n (List.mem_cons_self n rest))]
    simp only [List.map_cons, List.nodup_cons] at hnd
    rw [ih (acc ++ [(bufferKey id n, n)]) hnd.2 ?_]
    · simp [bufferEntries]
    · intro n' hn'
      simp only [List.map_append, List.mem_append, List.map_cons,
        List.map_nil, List.mem_singleton]
      rintro (h1 | h2)
      · exact hfresh n' (List.mem_cons_of_mem n hn') h1
      · exact hnd.1 (h2 ▸ List.mem_map_of_mem (bufferKey id) hn')

lemma uniform_buffers_loop_entries (ast : Ast) (fuel : Nat)
    (f : Resource → List String) :
    ∀ (bufs : List Resource) (acc : List (String × String)),
      (∀ b ∈ bufs, get_member_names_deep ast fuel b.base_type_id =
        RunResult.ok (f b)) →
      ((bufs.flatMap (fun b => bufferEntries b.id (f b))).map
        Prod.fst).Nodup →
      (∀ k ∈ (bufs.flatMap (fun b => bufferEntries b.id (f b))).map
        Prod.fst, k ∉ acc.map Prod.fst) →
      uniform_buffers_loop ast fuel bufs acc =
        RunResult.ok (acc ++
          bufs.flatMap (fun b => bufferEntries b.id (f b))) := by
  intro bufs
  induction bufs with
  | nil => intro acc _ _ _; simp [uniform_buffers_loop]
  | cons b rest ih =>
    intro acc hok hnd hfresh
    rw [List.flatMap_cons, List.map_append, List.nodup_append] at hnd
    simp only [uniform_buffers_loop, hok b (List.mem_cons_self b rest)]
    rw [insert_names_fold b.id (f b) acc ?hnd1 ?hfresh1]
    case hnd1 =>
      have : (bufferEntries b.id (f b)).map Prod.fst =
          (f b).map (bufferKey b.id) := by
        simp [bufferEntries, List.map_map, Function.comp_def]
      rw [← this]
      exact hnd.1
    case hfresh1 =>
      intro n hn
      refine hfresh (bufferKey b.id n) ?_
      rw [List.flatMap_cons, List.map_append, List.mem_append]
      exact Or.inl (by
        simp only [bufferEntries, List.map_map, List.mem_map,
          Function.comp_def]
        exact ⟨n, hn, rfl⟩)
    rw [ih (acc ++ bufferEntries b.id (f b))
      (fun b' hb' => hok b' (List.mem_cons_of_mem b hb')) hnd.2.1 ?_]
    · simp [List.append_assoc]
    · intro k hk
      rw [List.map_append, List.mem_append]
      rintro (h1 | h2)
      · exact hfresh k
          (by rw [List.flatMap_cons, List.map_append, List.mem_append];
              exact Or.inr hk) h1
      · exact hnd.2.2 h2 hk

lemma buffer_entries_keys_nodup (f : Resource → List String) :
    ∀ bufs : List Resource,
      bufs.Pairwise (fun b1 b2 => b1.id ≠ b2.id) →
      (∀ b ∈ bufs, (f b).Nodup) →
      ((bufs.flatMap (fun b => bufferEntries b.id (f b))).map
        Prod.fst).Nodup := by
  intro bufs
  induction bufs with
  | nil => intro _ _; simp
  | cons b rest ih =>
    intro hp hnd
    rw [List.pairwise_cons] at hp
    rw [List.flatMap_cons, List.map_append, List.nodup_append]
    refine ⟨?_, ih hp.2 (fun b' hb' => hnd b' (List.mem_cons_of_mem b hb')), ?_⟩
    · have : (bufferEntries b.id (f b)).map Prod.fst =
          (f b).map (bufferKey b.id) := by
        simp [bufferEntries, List.map_map, Function.comp_def]
      rw [this]
      exact (hnd b (List.mem_cons_self b rest)).map
        (fun p q h => (bufferKey_inj h).2)
    · intro k hk1 hk2
      simp only [bufferEntries, List.map_map, List.mem_map,
        Function.comp_def] at hk1
      obtain ⟨n, _, rfl⟩ := hk1
      simp only [List.mem_map, List.mem_flatMap, bufferEntries,
        Function.comp_def] at hk2
      obtain ⟨p, ⟨b', hb', n', _, rfl⟩, hkp⟩ := hk2
      exact hp.1 b' hb' (bufferKey_inj hkp.symm).1

/-- C7: under the preconditions that buffer numeric ids are pairwise
distinct and each buffer's flattened leaf paths are pairwise distinct,
the buffer pass produces exactly one entry per (buffer, leaf path) pair —
no insert overwrites an earlier one — and all produced keys (including
keys of different buffers) are pairwise distinct. -/
theorem buffer_pass_exact_and_unique (ast : Ast) (fuel : Nat)
    (bufs : List Resource) (f : Resource → List String)
    (hok : ∀ b ∈ bufs, get_member_names_deep ast fuel b.base_type_id =
      RunResult.ok (f b))
    (hids : (bufs.map Resource.id).Pairwise (fun i j => i ≠ j))
    (hpaths : ∀ b ∈ bufs, (f b).Nodup) :
    uniform_buffers_loop ast fuel bufs [] =
      RunResult.ok (bufs.flatMap (fun b => bufferEntries b.id (f b))) ∧
    ((bufs.flatMap (fun b => bufferEntries b.id (f b))).map
      Prod.fst).Nodup := by
  rw [List.pairwise_map] at hids
  have hnd := buffer_entries_keys_nodup f bufs hids hpaths
  refine ⟨?_, hnd⟩
  have h := uniform_buffers_loop_entries ast fuel f bufs [] hok hnd
    (by simp)
  simpa using h

/-- Witness for C7 at the concrete environment `astA` (one buffer, id 7,
three distinct leaf paths). -/
theorem buffer_pass_exact_and_unique_witness :
    uniform_buffers_loop astA 10 [⟨7, 0, 0, "cb"⟩] [] =
      RunResult.ok ([(⟨7, 0, 0, "cb"⟩ : Resource)].flatMap
        (fun b => bufferEntries b.id ["x", "s[0].y", "s[1].y"])) ∧
    (([(⟨7, 0, 0, "cb"⟩ : Resource)].flatMap
      (fun b => bufferEntries b.id ["x", "s[0].y", "s[1].y"])).map
      Prod.fst).Nodup := by
  refine buffer_pass_exact_and_unique astA 10 [⟨7, 0, 0, "cb"⟩]
    (fun _ => ["x", "s[0].y", "s[1].y"]) ?_ ?_ ?_
  · intro b hb
    rcases List.mem_singleton.mp hb with rfl
    rfl
  · simp
  · intro b _
    show (["x", "s[0].y", "s[1].y"] : List String).Nodup
    decide

/-! ### Exact contents of the final mapping -/

lemma sampled_images_loop_entries (separate : List Resource) :
    ∀ (sampled : List Resource) (idx : Nat) (acc : List (String × String)),
      idx + sampled.length ≤ separate.length →
      (sampled.map (fun s => samplerKey s.id)).Nodup →
      (∀ s ∈ sampled, samplerKey s.id ∉ acc.map Prod.fst) →
      sampled_images_loop separate sampled idx acc =
        RunResult.ok (acc ++ (sampled.zip (separate.drop idx)).map
          (fun p => (samplerKey p.1.id, p.2.name))) := by
  intro sampled
  induction sampled with
  | nil => intro idx acc _ _ _; simp [sampled_images_loop]
  | cons s rest ih =>
    intro idx acc hlen hnd hfresh
    have hidx : idx < separate.length := by
      simp only [List.length_cons] at hlen; omega
    simp only [sampled_images_loop,
      (List.getElem?_eq_some_getElem_iff separate idx hidx).mpr trivial]
    have hkey : ("_" ++ toString s.id) = samplerKey s.id := rfl
    rw [hkey, insertMapping_fresh (hfresh s (List.mem_cons_self s rest))]
    simp only [List.map_cons, List.nodup_cons] at hnd
    rw [ih (idx + 1) (acc ++ [(samplerKey s.id, separate[idx].name)])
      (by simp only [List.length_cons] at hlen; omega) hnd.2 ?_]
    · rw [List.drop_eq_getElem_cons hidx, List.zip_cons_cons,
        List.map_cons]
      simp [List.append_assoc]
    · intro s' hs'
      simp only [List.map_append, List.mem_append, List.map_cons,
        List.map_nil, List.mem_singleton]
      rintro (h1 | h2)
      · exact hfresh s' (List.mem_cons_of_mem s hs') h1
      · exact hnd.1 (h2 ▸ List.mem_map_of_mem (fun r => samplerKey r.id) hs')

/-- C3: with every buffer's flattening succeeding and the two sampler
lists positionally paired (equal lengths), and under the module invariants
that buffer ids are pairwise distinct, each buffer's leaf paths are
pairwise distinct, and combined-sampler ids are pairwise distinct, the
resulting mapping consists of exactly: one entry `("_<b.id>.<p>", p)` per
buffer `b` and leaf path `p` of its flattening, and one entry
`("_<combined[i].id>", separate_texture[i].name)` per index `i` — and
nothing else. -/
theorem find_uniform_mappings_exact_entries
    (ast : Ast) (fuel : Nat) (sr : ShaderResources)
    (f : Resource → List String)
    (hres : ast.get_shader_resources = Except.ok sr)
    (hbuf : ∀ b ∈ sr.uniform_buffers,
      get_member_names_deep ast fuel b.base_type_id = RunResult.ok (f b))
    (hbids : (sr.uniform_buffers.map Resource.id).Pairwise (fun i j => i ≠ j))
    (hpaths : ∀ b ∈ sr.uniform_buffers, (f b).Nodup)
    (hlen : sr.sampled_images.length = sr.separate_images.length)
    (hsids : (sr.sampled_images.map Resource.id).Pairwise (fun i j => i ≠ j)) :
    find_uniform_mappings ast fuel = RunResult.ok
      ((sr.uniform_buffers.flatMap (fun b => bufferEntries b.id (f b))) ++
        (sr.sampled_images.zip sr.separate_images).map
          (fun p => (samplerKey p.1.id, p.2.name))) := by
  rw [List.pairwise_map] at hbids
  have hnd := buffer_entries_keys_nodup f sr.uniform_buffers hbids hpaths
  simp only [find_uniform_mappings, hres]
  rw [uniform_buffers_loop_entries ast fuel f sr.uniform_buffers [] hbuf hnd
    (by simp)]
  have hsnd : (sr.sampled_images.map (fun s => samplerKey s.id)).Nodup := by
    rw [List.pairwise_map] at hsids
    exact (List.pairwise_map).mpr
      (hsids.imp (fun h hk => h (samplerKey_inj hk)))
  have hfresh : ∀ s ∈ sr.sampled_images, samplerKey s.id ∉
      (([] ++ sr.uniform_buffers.flatMap
        (fun b => bufferEntries b.id (f b))).map Prod.fst) := by
    intro s _ hmem
    simp only [List.nil_append, List.mem_map, List.mem_flatMap,
      bufferEntries] at hmem
    obtain ⟨p, ⟨b', hb', n', _, rfl⟩, hkp⟩ := hmem
    exact samplerKey_ne_bufferKey s.id b'.id n' hkp.symm
  show sampled_images_loop sr.separate_images sr.sampled_images 0
    ([] ++ sr.uniform_buffers.flatMap (fun b => bufferEntries b.id (f b))) = _
  rw [sampled_images_loop_entries sr.separate_images sr.sampled_images 0
    ([] ++ sr.uniform_buffers.flatMap (fun b => bufferEntries b.id (f b)))
    (by omega) hsnd hfresh]
  simp

/-- Witness for C3 at the concrete environment `astA`: one buffer (id 7)
with three leaf paths and one combined sampler (id 11) paired with the
separate texture `myTex`. -/
theorem find_uniform_mappings_exact_entries_witness :
    find_uniform_mappings astA 10 = RunResult.ok
      (([(⟨7, 0, 0, "cb"⟩ : Resource)].flatMap
        (fun b => bufferEntries b.id ["x", "s[0].y", "s[1].y"])) ++
       ([(⟨11, 5, 5, "combined"⟩ : Resource)].zip
         [(⟨12, 6, 6, "myTex"⟩ : Resource)]).map
          (fun p => (samplerKey p.1.id, p.2.name))) := by
  refine find_uniform_mappings_exact_entries astA 10
    { uniform_buffers := [⟨7, 0, 0, "cb"⟩]
      sampled_images := [⟨11, 5, 5, "combined"⟩]
      separate_images := [⟨12, 6, 6, "myTex"⟩]
      separate_samplers := [] }
    (fun _ => ["x", "s[0].y", "s[1].y"]) rfl ?_ ?_ ?_ rfl ?_
  · intro b hb
    rcases List.mem_singleton.mp hb with rfl
    rfl
  · simp
  · intro b _
    show (["x", "s[0].y", "s[1].y"] : List String).Nodup
    decide
  · simp

/-! ### Termination of the flattener on acyclic type graphs -/

lemma member_names_loop_congr (ast : Ast) (sid : Nat)
    (deep1 deep2 : Nat → RunResult (List String)) :
    ∀ (l : List Nat),
      (∀ mt ∈ l, ∀ smts sar bt,
        ast.get_type mt = Except.ok (SpirvType.Struct smts sar) →
        ast.get_base_type_id mt = Except.ok bt →
        deep1 bt = deep2 bt ∧ deep1 bt ≠ RunResult.outOfFuel) →
      ∀ mid, member_names_loop ast deep1 sid l mid =
          member_names_loop ast deep2 sid l mid ∧
        member_names_loop ast deep1 sid l mid ≠ RunResult.outOfFuel := by
  intro l
  induction l with
  | nil => intro _ mid; exact ⟨rfl, by simp [member_names_loop]⟩
  | cons mt rest ih =>
    intro hch mid
    have ihr := ih (fun mt' hm' => hch mt' (List.mem_cons_of_mem mt hm'))
    simp only [member_names_loop]
    cases hn : ast.get_member_name sid mid <;> simp only [hn]
    case error => exact ⟨by trivial, by simp⟩
    case ok name =>
    cases hty : ast.get_type mt <;> try simp only [hty]
    case error => exact ⟨by trivial, by simp⟩
    case ok ty =>
    cases ty <;> try simp only []
    case Image => exact ⟨by trivial, by simp⟩
    case SampledImage => exact ⟨by trivial, by simp⟩
    case Sampler => exact ⟨by trivial, by simp⟩
    case AtomicCounter => exact ⟨by trivial, by simp⟩
    case Void => exact ⟨by trivial, by simp⟩
    case Unknown => exact ⟨by trivial, by simp⟩
    case Struct smts sar =>
      cases hb : ast.get_base_type_id mt <;> simp only [hb]
      case error => exact ⟨by trivial, by simp⟩
      case ok bt =>
      obtain ⟨hdeq, hdne⟩ := hch mt (List.mem_cons_self mt rest) smts sar bt
        hty hb
      rw [hdeq] at hdne ⊢
      cases hd : deep2 bt <;> simp only [hd]
      case err => exact ⟨by trivial, by simp⟩
      case panic => exact ⟨by trivial, by simp⟩
      case outOfFuel => exact absurd hd hdne
      case ok children =>
      obtain ⟨heq, hne⟩ := ihr (mid + 1)
      rw [heq] at hne ⊢
      cases h1 : member_names_loop ast deep2 sid rest (mid + 1) <;>
        simp only [h1]
      case ok => exact ⟨by trivial, by simp⟩
      case err => exact ⟨by trivial, by simp⟩
      case panic => exact ⟨by trivial, by simp⟩
      case outOfFuel => exact absurd h1 hne
    all_goals {
      obtain ⟨heq, hne⟩ := ihr (mid + 1)
      rw [heq] at hne ⊢
      cases h1 : member_names_loop ast deep2 sid rest (mid + 1) <;>
        simp only [h1]
      case ok => exact ⟨by trivial, by simp⟩
      case err => exact ⟨by trivial, by simp⟩
      case panic => exact ⟨by trivial, by simp⟩
      case outOfFuel => exact absurd h1 hne
    }

lemma deep_fuel_stable (ast : Ast) (rank : Nat → Nat)
    (hrank : ∀ id bt, childEdge ast id bt → rank bt < rank id) :
    ∀ (r : Nat) (id : Nat), rank id < r →
      ∀ (f1 f2 : Nat), rank id < f1 → rank id < f2 →
        get_member_names_deep ast f1 id = get_member_names_deep ast f2 id ∧
        get_member_names_deep ast f1 id ≠ RunResult.outOfFuel := by
  intro r
  induction r with
  | zero => intro id h; omega
  | succ r ih =>
    intro id hr f1 f2 h1 h2
    cases f1 with
    | zero => omega
    | succ f1' =>
    cases f2 with
    | zero => omega
    | succ f2' =>
    simp only [get_member_names_deep]
    cases hty : ast.get_type id <;> try simp only [hty]
    case error => exact ⟨by trivial, by simp⟩
    case ok ty =>
    cases ty <;> try simp only []
    case Struct mts ar =>
      exact member_names_loop_congr ast id
        (fun i => get_member_names_deep ast f1' i)
        (fun i => get_member_names_deep ast f2' i) mts
        (fun mt hmt smts sar bt hmty hbase =>
          have hedge : childEdge ast id bt :=
            ⟨mts, ar, mt, smts, sar, hty, hmt, hmty, hbase⟩
          have hlt : rank bt < rank id := hrank id bt hedge
          ih bt (by omega) f1' f2' (by omega) (by omega)) 0
    all_goals exact ⟨by trivial, by simp⟩

/-- C8: under the acyclicity precondition — rendered as a recursion-depth
bound `rank` that strictly decreases along every member base-type edge,
which is equivalent to acyclicity on the finite type graph of a real
module — the recursive flattener terminates: with any fuel beyond the
root's rank it never exhausts the fuel, and its result is independent of
the fuel, i.e. it is a total function of its reflection input. -/
theorem get_member_names_deep_terminates
    (ast : Ast) (rank : Nat → Nat)
    (hrank : ∀ id bt, childEdge ast id bt → rank bt < rank id)
    (id fuel : Nat) (hfuel : rank id < fuel) :
    get_member_names_deep ast fuel id ≠ RunResult.outOfFuel ∧
    get_member_names_deep ast fuel id =
      get_member_names_deep ast (rank id + 1) id := by
  obtain ⟨heq, hne⟩ := deep_fuel_stable ast rank hrank (rank id + 1) id
    (Nat.lt_succ_self _) fuel (rank id + 1) hfuel (Nat.lt_succ_self _)
  exact ⟨hne, heq⟩

/-- Witness for C8: `rankA` strictly decreases along the single recursion
edge of `astA`'s type graph, so flattening the buffer struct 0 terminates
and is fuel-independent. -/
theorem get_member_names_deep_terminates_witness :
    get_member_names_deep astA 5 0 ≠ RunResult.outOfFuel ∧
    get_member_names_deep astA 5 0 =
      get_member_names_deep astA (rankA 0 + 1) 0 := by
  refine get_member_names_deep_terminates astA rankA ?_ 0 5 (by decide)
  intro id bt h
  obtain ⟨mts, ar, mt, smts, sar, hty, hmem, hmty, hbase⟩ := h
  simp only [astA] at hty
  split at hty
  · -- id = 0, member types [1, 2]
    rename_i h0
    injection hty with h1
    injection h1 with hmts har
    subst hmts
    simp only [List.mem_cons, List.not_mem_nil, or_false] at hmem
    rcases hmem with rfl | rfl
    · injection hmty with h2; cases h2
    · injection hbase with h3
      subst h3
      subst h0
      decide
  · split at hty
    · injection hty with h1; cases h1
    · split at hty
      · -- id = 2, member types []
        injection hty with h1
        injection h1 with hmts har
        subst hmts
        cases hmem
      · split at hty
        · -- id = 3, member types [4]
          injection hty with h1
          injection h1 with hmts har
          subst hmts
          simp only [List.mem_singleton] at hmem
          subst hmem
          injection hmty with h2; cases h2
        · split at hty
          · injection hty with h1; cases h1
          · cases hty

end HlslIntoGlsl
